import Mathlib

/-!
Verification of the meli-challenge anonymization pipeline.

Shallow embedding of the core pipeline code (entity detection, classification,
routing, strategy resolution, anonymization, quality verification) as Lean
definitions, followed by theorems about the embedded code.

Text is modelled as `List Char` (Python `str` with character offsets).
Python `int` offsets produced by the detectors are modelled as `Nat`;
the sweep variable `last_end`, initialized to `-1`, is modelled as `Int`.
-/

namespace Meli

/-! ### Generic string helpers (Python `str` operations used by the code) -/

/-- Python slicing `s[a:b]` for `0 ≤ a ≤ b` (clamping at the ends). -/
def sliceL (s : List Char) (a b : Nat) : List Char :=
  (s.drop a).take (b - a)

/-- Python `haystack.find(needle)`: index of the first occurrence, `none` if absent. -/
def strFind : List Char → List Char → Option Nat
  | _, [] => some 0
  | [], _ :: _ => none
  | c :: rest, needle =>
    if needle.isPrefixOf (c :: rest) then some 0
    else (strFind rest needle).map (· + 1)

/-- Python `needle in haystack`. -/
def containsL (hay needle : List Char) : Bool :=
  (strFind hay needle).isSome

/-- Python `s.lower()`, modelled character-wise. -/
def toLowerL (s : List Char) : List Char :=
  s.map Char.toLower

/-- Python `s.upper()`, modelled character-wise. -/
def toUpperL (s : List Char) : List Char :=
  s.map Char.toUpper

/-- Python `s.strip()`. -/
def stripL (s : List Char) : List Char :=
  ((s.dropWhile Char.isWhitespace).reverse.dropWhile Char.isWhitespace).reverse

/-- Decimal digits of a natural number, most significant first. -/
def natDigits (n : Nat) : List Char :=
  (Nat.toDigits 10 n)

/-- Python `f"{n:03d}"`: decimal, zero-padded on the left to width 3. -/
def pad3 (n : Nat) : List Char :=
  let s := natDigits n
  List.replicate (3 - s.length) '0' ++ s

/-! ### Data model (src/schemas/entities.py)

Only the fields the verified claims depend on are carried.  The Python
attribute `end` is a reserved word in Lean and is modelled as `stop`. -/

/-- `Regulation` enum. -/
inductive Regulation where
  | GDPR
  | HIPAA
  | PCI_DSS
deriving DecidableEq, Repr

/-- `DetectedEntity` (value, entity_type, start, end). -/
structure DetectedEntity where
  value : List Char
  entity_type : String
  start : Nat
  stop : Nat
deriving DecidableEq, Repr

/-- `ClassifiedEntity` (value_detected, entity_type, start, end). -/
structure ClassifiedEntity where
  value_detected : List Char
  entity_type : String
  start : Nat
  stop : Nat
deriving DecidableEq, Repr

/-! ### Classifier (src/graph/nodes/classify.py) -/

/-- `pci_core_entities` in `_determine_primary_regulation`. -/
def pci_core_entities : List String := ["credit_card", "cvv"]

/-- `hipaa_specific_entities` in `_determine_primary_regulation`. -/
def hipaa_specific_entities : List String :=
  ["medical_diagnosis", "medication", "medical_record_number",
   "health_plan_number", "biometric_identifier", "facial_image",
   "admission_date", "discharge_date", "death_date", "patient_name"]

/-- `_determine_primary_regulation(flags, entity_types)`.  Python set
truthiness of `a.intersection(b)` is modelled as `List.any` membership. -/
def determine_primary_regulation (flags : List Regulation)
    (entity_types : List String) : Regulation :=
  if Regulation.PCI_DSS ∈ flags ∧ pci_core_entities.any (entity_types.contains ·) then
    Regulation.PCI_DSS
  else if Regulation.HIPAA ∈ flags ∧ hipaa_specific_entities.any (entity_types.contains ·) then
    Regulation.HIPAA
  else
    Regulation.GDPR

/-! ### Router (src/graph/nodes/route.py) and workflow wiring (src/graph/workflow.py) -/

/-- `determine_regulation_path(state)`: routes on the `regulation_flags` set. -/
def determine_regulation_path (regulation_flags : List Regulation) : String :=
  if Regulation.PCI_DSS ∈ regulation_flags ∧ Regulation.GDPR ∈ regulation_flags then
    "pci_gdpr_path"
  else if Regulation.PCI_DSS ∈ regulation_flags then
    "pci_path"
  else if Regulation.HIPAA ∈ regulation_flags then
    "hipaa_path"
  else if Regulation.GDPR ∈ regulation_flags then
    "gdpr_path"
  else if regulation_flags.length = 0 then
    "escalation_path"
  else
    "gdpr_path"

/-- The conditional-edge map attached to the `classify` node in `create_workflow`. -/
def route_targets : List (String × String) :=
  [("gdpr_path", "justify_gdpr"),
   ("hipaa_path", "justify_hipaa"),
   ("pci_path", "justify_pci"),
   ("pci_gdpr_path", "justify_pci"),
   ("escalation_path", "justify_gdpr")]

/-- Outgoing edges of the three justify nodes in `create_workflow`. -/
def justify_successors : List (String × String) :=
  [("justify_gdpr", "anonymize"),
   ("justify_hipaa", "anonymize"),
   ("justify_pci", "anonymize")]

/-! ### Strategy tables (src/anonymization/strategies.py) -/

/-- A row of a strategy table: technique / regulation article / justification. -/
structure StrategyRow where
  technique : String
  article : String
  justification : String
deriving DecidableEq, Repr

/-- `GDPR_STRATEGIES`. -/
def GDPR_STRATEGIES : List (String × StrategyRow) :=
  [("person_name", ⟨"pseudonymization", "GDPR Art. 4(5)",
      "Pseudonymization prevents attribution without additional info"⟩),
   ("email", ⟨"masking", "GDPR Art. 32(1)(a)",
      "Pseudonymization as security measure while preserving domain structure"⟩),
   ("phone_chile", ⟨"masking", "GDPR Art. 32(1)(a)",
      "Preserve country code, mask personal digits"⟩),
   ("phone_intl", ⟨"masking", "GDPR Art. 32(1)(a)",
      "Preserve country code, mask personal digits"⟩),
   ("address", ⟨"generalization", "GDPR Art. 5(1)(c)",
      "Data minimization - reduce precision while maintaining regional utility"⟩),
   ("rut_chile", ⟨"tokenization", "GDPR Art. 32(1)(a)",
      "High sensitivity national ID, enable reversibility if needed"⟩),
   ("date_dmy", ⟨"generalization", "GDPR Art. 5(1)(c)",
      "Data minimization, year sufficient for demographics"⟩),
   ("date_ymd", ⟨"generalization", "GDPR Art. 5(1)(c)",
      "Data minimization, year sufficient for demographics"⟩),
   ("organization", ⟨"pseudonymization", "GDPR Art. 4(5)",
      "Organization names can be indirect identifiers"⟩)]

/-- `HIPAA_STRATEGIES`. -/
def HIPAA_STRATEGIES : List (String × StrategyRow) :=
  [("patient_name", ⟨"removal", "HIPAA §164.514(b)(2)(i)(A)",
      "Safe Harbor identifier #1 - names must be removed"⟩),
   ("person_name", ⟨"removal", "HIPAA §164.514(b)(2)(i)(A)",
      "Safe Harbor identifier #1 - names must be removed"⟩),
   ("physician_name", ⟨"removal", "HIPAA §164.514(b)(2)(i)(A)",
      "Safe Harbor identifier #1 - names must be removed"⟩),
   ("email", ⟨"removal", "HIPAA §164.514(b)(2)(i)(F)",
      "Safe Harbor identifier #6 - email addresses"⟩),
   ("phone_chile", ⟨"removal", "HIPAA §164.514(b)(2)(i)(D)",
      "Safe Harbor identifier #4 - telephone numbers"⟩),
   ("phone_intl", ⟨"removal", "HIPAA §164.514(b)(2)(i)(D)",
      "Safe Harbor identifier #4 - telephone numbers"⟩),
   ("date_dmy", ⟨"generalization", "HIPAA §164.514(b)(2)(i)(C)",
      "Safe Harbor #3 - dates except year"⟩),
   ("date_ymd", ⟨"generalization", "HIPAA §164.514(b)(2)(i)(C)",
      "Safe Harbor #3 - dates except year"⟩),
   ("address", ⟨"removal", "HIPAA §164.514(b)(2)(i)(B)",
      "Safe Harbor #2 - geographic subdivisions smaller than state"⟩),
   ("medical_diagnosis", ⟨"keep", "HIPAA §164.514(b)(2)",
      "Clinical data needed for research, not a direct identifier"⟩),
   ("medication", ⟨"keep", "HIPAA §164.514(b)(2)",
      "Clinical data, cannot identify individual without additional info"⟩)]

/-- `PCI_DSS_STRATEGIES`. -/
def PCI_DSS_STRATEGIES : List (String × StrategyRow) :=
  [("credit_card", ⟨"truncation", "PCI DSS Req. 3.4",
      "PAN must be rendered unreadable - show only last 4 digits"⟩),
   ("cvv", ⟨"removal", "PCI DSS Req. 3.2",
      "CVV/CVC must NEVER be stored after authorization"⟩),
   ("expiry_date", ⟨"tokenization", "PCI DSS Req. 3.4",
      "Sensitive authentication data should be tokenized"⟩),
   ("person_name", ⟨"pseudonymization", "GDPR Art. 4(5) + PCI DSS context",
      "Cardholder name - apply GDPR pseudonymization"⟩),
   ("email", ⟨"masking", "GDPR Art. 32(1)(a)",
      "Apply GDPR masking for contact data"⟩),
   ("phone_chile", ⟨"masking", "GDPR Art. 32(1)(a)",
      "Apply GDPR masking for contact data"⟩),
   ("phone_intl", ⟨"masking", "GDPR Art. 32(1)(a)",
      "Apply GDPR masking for contact data"⟩),
   ("address", ⟨"generalization", "GDPR Art. 5(1)(c)",
      "Billing address - apply GDPR generalization"⟩)]

/-- The per-regulation table chosen inside `get_strategy_for_entity`. -/
def strategy_map_for : Regulation → List (String × StrategyRow)
  | Regulation.GDPR => GDPR_STRATEGIES
  | Regulation.HIPAA => HIPAA_STRATEGIES
  | Regulation.PCI_DSS => PCI_DSS_STRATEGIES

/-- The per-regulation defaults inside `get_strategy_for_entity`. -/
def default_strategy_for : Regulation → StrategyRow
  | Regulation.GDPR => ⟨"pseudonymization", "GDPR Art. 4(5)",
      "Default pseudonymization for unspecified entity types"⟩
  | Regulation.HIPAA => ⟨"removal", "HIPAA §164.514(b)(2)",
      "Default removal for potential PHI"⟩
  | Regulation.PCI_DSS => ⟨"tokenization", "PCI DSS Req. 3.4",
      "Default tokenization for payment-related data"⟩

/-- `get_strategy_for_entity(entity_type, regulation)`. -/
def get_strategy_for_entity (entity_type : String) (regulation : Regulation) :
    StrategyRow :=
  match (strategy_map_for regulation).lookup entity_type with
  | some row => row
  | none => default_strategy_for regulation

/-! ### Justify node (src/graph/nodes/justify.py)

Only the `anonymization_strategies` map it produces matters downstream; the
free-text justification comes from the generative-model oracle and is not part
of any verified claim.  All three justify nodes of the workflow run this same
function. -/

/-- One value of the `anonymization_strategies` dict built by `justify_node`. -/
structure JustifyStrategy where
  technique : String
  regulation_article : String
  entity_type : String
deriving DecidableEq, Repr

/-- The `anonymization_strategies` map built by `justify_node`: one entry per
entity keyed by `value_detected` (later entities overwrite earlier ones with
the same value, as in a Python dict; modelled by left-biased lookup over the
reversed insertion sequence). -/
def justify_strategies (entities : List ClassifiedEntity)
    (primary : Regulation) : List (List Char × JustifyStrategy) :=
  (entities.map (fun e =>
    let row := get_strategy_for_entity e.entity_type primary
    (e.value_detected, JustifyStrategy.mk row.technique row.article e.entity_type))).reverse

/-- The node function attached to each of `justify_gdpr`, `justify_hipaa`,
`justify_pci` in `create_workflow` — the same `justify_node` for all three. -/
def justify_node_fns : List (String ×
    (List ClassifiedEntity → Regulation → List (List Char × JustifyStrategy))) :=
  [("justify_gdpr", justify_strategies),
   ("justify_hipaa", justify_strategies),
   ("justify_pci", justify_strategies)]

/-! ### SHA-256 (the `hashlib.sha256` dependency of `tokenize_value`)

Implemented per FIPS 180-4 over `Nat` with explicit reduction mod `2^32`;
round and initialization constants are derived, as in the standard, from the
fractional parts of cube/square roots of the first primes. -/

/-- Reduction to a 32-bit word. -/
def m32 (n : Nat) : Nat := n % 4294967296

/-- 32-bit right rotation. -/
def rotr32 (k x : Nat) : Nat := m32 ((x >>> k) ||| (x <<< (32 - k)))

def sigma0 (x : Nat) : Nat := rotr32 7 x ^^^ rotr32 18 x ^^^ (x >>> 3)
def sigma1 (x : Nat) : Nat := rotr32 17 x ^^^ rotr32 19 x ^^^ (x >>> 10)
def bigSigma0 (x : Nat) : Nat := rotr32 2 x ^^^ rotr32 13 x ^^^ rotr32 22 x
def bigSigma1 (x : Nat) : Nat := rotr32 6 x ^^^ rotr32 11 x ^^^ rotr32 25 x
def chFn (x y z : Nat) : Nat := (x &&& y) ^^^ ((x ^^^ 4294967295) &&& z)
def majFn (x y z : Nat) : Nat := (x &&& y) ^^^ (x &&& z) ^^^ (y &&& z)

/-- Trial-division primality test (only used to generate the SHA-256 constants). -/
def isPrimeNat (n : Nat) : Bool :=
  2 ≤ n && ((List.range n).drop 2).all (fun d => n % d ≠ 0)

/-- The first `k` primes. -/
def firstPrimes (k : Nat) : List Nat :=
  ((List.range 400).filter isPrimeNat).take k

/-- Integer cube root by binary search (largest `k` with `k^3 ≤ n`). -/
def icbrtGo (n : Nat) : Nat → Nat → Nat
  | lo, hi =>
    if _h : hi ≤ lo + 1 then lo
    else
      let mid := (lo + hi) / 2
      if mid ^ 3 ≤ n then icbrtGo n mid hi else icbrtGo n lo mid
termination_by lo hi => hi - lo
decreasing_by all_goals simp_all; omega

def icbrt (n : Nat) : Nat := icbrtGo n 0 (n + 2)

/-- SHA-256 round constants: first 32 fractional bits of the cube roots of the
first 64 primes. -/
def K64 : List Nat := (firstPrimes 64).map (fun p => m32 (icbrt (p * 2 ^ 96)))

/-- SHA-256 initial hash value: first 32 fractional bits of the square roots of
the first 8 primes. -/
def H8 : List Nat := (firstPrimes 8).map (fun p => m32 (Nat.sqrt (p * 2 ^ 64)))

/-- Big-endian 64-bit length field of the padding. -/
def be64 (n : Nat) : List Nat :=
  (List.range 8).map (fun i => (n >>> (56 - 8 * i)) % 256)

/-- SHA-256 message padding. -/
def sha256pad (msg : List Nat) : List Nat :=
  msg ++ [128] ++ List.replicate ((64 + 56 - (msg.length + 1) % 64) % 64) 0
      ++ be64 (8 * msg.length)

/-- Split a byte list into 64-byte blocks. -/
def chunks64 : List Nat → List (List Nat)
  | [] => []
  | b :: rest => (b :: rest).take 64 :: chunks64 ((b :: rest).drop 64)
termination_by l => l.length
decreasing_by simp; omega

/-- The 16 big-endian message words of one block. -/
def words16 (chunk : List Nat) : List Nat :=
  (List.range 16).map (fun i =>
    chunk.getD (4 * i) 0 * 16777216 + chunk.getD (4 * i + 1) 0 * 65536 +
    chunk.getD (4 * i + 2) 0 * 256 + chunk.getD (4 * i + 3) 0)

/-- Message-schedule extension to 64 words. -/
def extendW (w : List Nat) : List Nat :=
  if _h : 64 ≤ w.length then w
  else
    extendW (w ++ [m32 (sigma1 (w.getD (w.length - 2) 0) + w.getD (w.length - 7) 0 +
      sigma0 (w.getD (w.length - 15) 0) + w.getD (w.length - 16) 0)])
termination_by 64 - w.length
decreasing_by simp_all; omega

/-- One SHA-256 compression step (round `t`). -/
def sha256round (w : List Nat) (st : List Nat) (t : Nat) : List Nat :=
  let a := st.getD 0 0
  let b := st.getD 1 0
  let c := st.getD 2 0
  let d := st.getD 3 0
  let e := st.getD 4 0
  let f := st.getD 5 0
  let g := st.getD 6 0
  let h := st.getD 7 0
  let t1 := m32 (h + bigSigma1 e + chFn e f g + K64.getD t 0 + w.getD t 0)
  let t2 := m32 (bigSigma0 a + majFn a b c)
  [m32 (t1 + t2), a, b, c, m32 (d + t1), e, f, g]

/-- SHA-256 compression of one block. -/
def sha256compress (hs : List Nat) (chunk : List Nat) : List Nat :=
  let w := extendW (words16 chunk)
  let final := (List.range 64).foldl (sha256round w) hs
  List.zipWith (fun x y => m32 (x + y)) hs final

/-- SHA-256 of a byte sequence, as eight 32-bit words. -/
def sha256 (msg : List Nat) : List Nat :=
  (chunks64 (sha256pad msg)).foldl sha256compress H8

/-- Lower-case hex digit. -/
def hexChar (n : Nat) : Char :=
  if n < 10 then Char.ofNat (48 + n) else Char.ofNat (87 + n)

/-- `hexdigest()` of a SHA-256 state. -/
def sha256hex (msg : List Nat) : List Char :=
  ((sha256 msg).map (fun wrd =>
    (List.range 8).map (fun i => hexChar ((wrd >>> (28 - 4 * i)) % 16)))).flatten

/-- UTF-8 encoding of one character (Python `str.encode()`). -/
def utf8Char (c : Char) : List Nat :=
  let n := c.toNat
  if n < 128 then [n]
  else if n < 2048 then [192 ||| (n >>> 6), 128 ||| (n &&& 63)]
  else if n < 65536 then
    [224 ||| (n >>> 12), 128 ||| ((n >>> 6) &&& 63), 128 ||| (n &&& 63)]
  else
    [240 ||| (n >>> 18), 128 ||| ((n >>> 12) &&& 63), 128 ||| ((n >>> 6) &&& 63),
     128 ||| (n &&& 63)]

/-- UTF-8 encoding of a string. -/
def utf8Encode (s : List Char) : List Nat := (s.map utf8Char).flatten

/-! ### Anonymization techniques (src/anonymization/techniques.py) -/

/-- The process-wide `_pseudonym_counter` dict, threaded explicitly:
insertion-ordered association list from normalized value to counter index. -/
abbrev PseudoState := List (List Char × Nat)

/-- `reset_pseudonym_counter()`: the empty counter a run starts from. -/
def reset_pseudonym_counter : PseudoState := []

/-- The local part produced by `email.split("@", 1)`: everything before the
first `'@'`. -/
def email_local (email : List Char) : List Char :=
  email.takeWhile (· ≠ '@')

/-- The domain part produced by `email.split("@", 1)`: everything after the
first `'@'`. -/
def email_domain (email : List Char) : List Char :=
  (email.dropWhile (· ≠ '@')).drop 1

/-- `mask_email(email)`.  Returns `none` where the Python code raises
`IndexError` (`local[0]` on an empty local part). -/
def mask_email (email : List Char) : Option (List Char) :=
  if ¬ email.contains '@' then some email
  else
    match email_local email with
    | [] => none
    | c :: rest =>
      let masked_local :=
        if (c :: rest).length ≤ 2 then [c, '*']
        else c :: '*' :: '*' :: '*' :: [(c :: rest).getLast (List.cons_ne_nil c rest)]
      some (masked_local ++ '@' :: email_domain email)

/-- `mask_phone(phone)`.  the regex substitution `re.sub` deleting every non-digit (pattern `\D`) is modelled as filtering
to ASCII digits. -/
def mask_phone (phone : List Char) : List Char :=
  let digits := phone.filter Char.isDigit
  if digits.length ≤ 4 then "****".toList ++ digits
  else
    let pfx_len := min 4 (digits.length - 4)
    let pfx := digits.take pfx_len
    let sfx := digits.drop (digits.length - 4)
    let masked_middle := List.replicate (digits.length - pfx_len - 4) '*'
    '+' :: (pfx ++ ' ' :: (masked_middle ++ sfx))

/-- `truncate_pan(pan)`. -/
def truncate_pan (pan : List Char) : List Char :=
  let digits := pan.filter Char.isDigit
  if digits.length < 4 then List.replicate digits.length '*'
  else List.replicate (digits.length - 4) '*' ++ digits.drop (digits.length - 4)

/-- `tokenize_value(value, entity_type)`. -/
def tokenize_value (value : List Char) (entity_type : String) : List Char :=
  "TOKEN_".toList ++ toUpperL entity_type.toList ++ '_' ::
    (sha256hex (utf8Encode value)).take 8

/-- The normalization `name.lower().strip()` in `pseudonymize_name`. -/
def pseudonym_key (name : List Char) : List Char := stripL (toLowerL name)

/-- `pseudonymize_name(name, prefix="Subject")` with the counter dict made
an explicit argument and result. -/
def pseudonymize_name (name : List Char) (st : PseudoState)
    (pfx : List Char := "Subject".toList) : List Char × PseudoState :=
  let key := pseudonym_key name
  match st.lookup key with
  | some n => (pfx ++ '-' :: pad3 n, st)
  | none => (pfx ++ '-' :: pad3 (st.length + 1), st ++ [(key, st.length + 1)])

/-- `re.match` of the pattern `\d{2}/\d{2}/(\d{4})`: anchored prefix match, returning
the year group. -/
def matchDMYyear : List Char → Option (List Char)
  | d1 :: d2 :: '/' :: m1 :: m2 :: '/' :: y1 :: y2 :: y3 :: y4 :: _ =>
    if [d1, d2, m1, m2, y1, y2, y3, y4].all Char.isDigit then some [y1, y2, y3, y4]
    else none
  | _ => none

/-- `re.match` of the pattern `(\d{4})-\d{2}-\d{2}`: anchored prefix match, returning
the year group. -/
def matchYMDyear : List Char → Option (List Char)
  | y1 :: y2 :: y3 :: y4 :: '-' :: m1 :: m2 :: '-' :: d1 :: d2 :: _ =>
    if [y1, y2, y3, y4, m1, m2, d1, d2].all Char.isDigit then some [y1, y2, y3, y4]
    else none
  | _ => none

/-- `generalize_date(date_str)`. -/
def generalize_date (date_str : List Char) : List Char :=
  match matchDMYyear date_str with
  | some y => y
  | none =>
    match matchYMDyear date_str with
    | some y => y
    | none => date_str

/-- `generalize_address(address)` (kept verbatim, including the comparisons of
capitalized literals against the lowercased text). -/
def generalize_address (address : List Char) : List Char :=
  if containsL address "Chile".toList || containsL (toLowerL address) "Santiago".toList then
    "Santiago, Chile".toList
  else if containsL address "Colombia".toList || containsL (toLowerL address) "Bogotá".toList then
    "Bogotá, Colombia".toList
  else
    "[LOCATION REDACTED]".toList

/-- The `placeholders` dict of `remove_value`. -/
def removal_placeholders : List (String × String) :=
  [("patient_name", "[PATIENT]"),
   ("physician_name", "[PHYSICIAN]"),
   ("person_name", "[NAME]"),
   ("email", "[EMAIL_REMOVED]"),
   ("phone", "[PHONE_REMOVED]"),
   ("address", "[ADDRESS_REMOVED]"),
   ("cvv", "[CVV_REMOVED]")]

/-- `remove_value(entity_type)`. -/
def remove_value (entity_type : String) : List Char :=
  ((removal_placeholders.lookup entity_type).getD "[REDACTED]").toList

/-- The seven keys of `technique_map` in `apply_technique`. -/
def recognized_techniques : List String :=
  ["masking", "tokenization", "pseudonymization", "generalization",
   "removal", "truncation", "truncation_tokenization"]

/-- `apply_technique(value, entity_type, technique)`, with the pseudonym
counter threaded explicitly.  `none` models an uncaught Python exception
(reachable only through `mask_email`). -/
def apply_technique (value : List Char) (entity_type : String)
    (technique : String) (st : PseudoState) : Option (List Char × PseudoState) :=
  if technique = "masking" then
    if entity_type = "email" then (mask_email value).map (fun r => (r, st))
    else if containsL entity_type.toList "phone".toList then some (mask_phone value, st)
    else if entity_type = "credit_card" then some (truncate_pan value, st)
    else some (value.take 2 ++ "***".toList, st)
  else if technique = "tokenization" then some (tokenize_value value entity_type, st)
  else if technique = "pseudonymization" then some (pseudonymize_name value st)
  else if technique = "generalization" then
    some ((if containsL entity_type.toList "date".toList then generalize_date value
           else if containsL entity_type.toLower.toList "address".toList then
             generalize_address value
           else value), st)
  else if technique = "removal" then some (remove_value entity_type, st)
  else if technique = "truncation" then some (truncate_pan value, st)
  else if technique = "truncation_tokenization" then
    some (tokenize_value (truncate_pan value) entity_type, st)
  else some ("[".toList ++ toUpperL entity_type.toList ++ "_ANONYMIZED]".toList, st)

/-! ### Anonymize node (src/graph/nodes/anonymize.py)

Python `sorted` is a stable sort; `List.insertionSort` with a non-strict
total preorder is stable in the same sense (an element is inserted before
the first strictly-greater element of the already-sorted suffix), so it
reproduces `sorted` exactly. -/

/-- The sort key of `filter_overlapping_entities`:
`key=lambda e: (e.start, -(e.end - e.start))`, as a total preorder. -/
def sweepKeyLe (a b : ClassifiedEntity) : Prop :=
  a.start < b.start ∨
    (a.start = b.start ∧ (b.stop : Int) - b.start ≤ (a.stop : Int) - a.start)

instance : DecidableRel sweepKeyLe := fun a b => by
  unfold sweepKeyLe; infer_instance

instance : IsTotal ClassifiedEntity sweepKeyLe :=
  ⟨by intro a b; unfold sweepKeyLe; omega⟩

instance : IsTrans ClassifiedEntity sweepKeyLe :=
  ⟨by intro a b c; unfold sweepKeyLe; omega⟩

/-- One iteration of the sweep in `filter_overlapping_entities`.  The state is
`(filtered, last_end)` with `filtered` kept in reverse (head = most recently
kept entity, Python `filtered[-1]`); `last_end` starts at `-1`. -/
def sweepStep (st : List ClassifiedEntity × Int) (entity : ClassifiedEntity) :
    List ClassifiedEntity × Int :=
  if (entity.start : Int) ≥ st.2 then (entity :: st.1, (entity.stop : Int))
  else if (entity.stop : Int) ≤ st.2 then st
  else
    match st.1 with
    | [] => st
    | h :: t =>
      if (entity.stop : Int) - entity.start > (h.stop : Int) - h.start then
        (entity :: t, (entity.stop : Int))
      else (h :: t, st.2)

/-- `filter_overlapping_entities(entities)`. -/
def filter_overlapping_entities (entities : List ClassifiedEntity) :
    List ClassifiedEntity :=
  match entities with
  | [] => []
  | _ :: _ =>
    let sorted_entities := List.insertionSort sweepKeyLe entities
    ((sorted_entities.foldl sweepStep ([], -1)).1).reverse

/-- The sort key of the application order: `key=lambda e: e.start, reverse=True`
(stable descending), as a total preorder. -/
def descStartLe (a b : ClassifiedEntity) : Prop := b.start ≤ a.start

instance : DecidableRel descStartLe := fun a b => by
  unfold descStartLe; infer_instance

instance : IsTotal ClassifiedEntity descStartLe :=
  ⟨by intro a b; unfold descStartLe; omega⟩

instance : IsTrans ClassifiedEntity descStartLe :=
  ⟨by intro a b c; unfold descStartLe; omega⟩

/-- One record of `transformation_log` (the `kept_reason` key is only present
on `keep` records, modelled as an `Option`). -/
structure LogEntry where
  original : List Char
  anonymized : List Char
  technique : String
  entity_type : String
  position : Nat
  kept_reason : Option String
deriving DecidableEq, Repr

/-- Technique resolution inside `anonymize_node`:
`strategies[value]["technique"]` when present, else `"pseudonymization"`. -/
def technique_for (strategies : List (List Char × JustifyStrategy))
    (value : List Char) : String :=
  match strategies.lookup value with
  | some s => s.technique
  | none => "pseudonymization"

/-- The body of the per-entity loop in `anonymize_node`, acting on
`(anonymized, transformation_log, pseudonym counter)`.  `none` models an
uncaught exception from `apply_technique`. -/
def anonStep (strategies : List (List Char × JustifyStrategy))
    (acc : List Char × List LogEntry × PseudoState) (entity : ClassifiedEntity) :
    Option (List Char × List LogEntry × PseudoState) :=
  let value := entity.value_detected
  let technique := technique_for strategies value
  if technique = "keep" then
    some (acc.1,
      acc.2.1 ++ [⟨value, value, "keep", entity.entity_type, entity.start,
        some "Clinical data, not a direct identifier"⟩],
      acc.2.2)
  else
    (apply_technique value entity.entity_type technique acc.2.2).map (fun rs =>
      (acc.1.take entity.start ++ rs.1 ++ acc.1.drop entity.stop,
       acc.2.1 ++ [⟨value, rs.1, technique, entity.entity_type, entity.start, none⟩],
       rs.2))

/-- `anonymize_node(state)`: returns `(anonymized_text, transformation_log)`. -/
def anonymize_node (raw_text : List Char)
    (classified_entities : List ClassifiedEntity)
    (strategies : List (List Char × JustifyStrategy)) :
    Option (List Char × List LogEntry) :=
  let filtered_entities := filter_overlapping_entities classified_entities
  let sorted_entities := List.insertionSort descStartLe filtered_entities
  (sorted_entities.foldlM (anonStep strategies)
      (raw_text, [], reset_pseudonym_counter)).map (fun r => (r.1, r.2.1))

/-! ### Entity detection (src/detection/regex_detector.py) -/

/-- `REGEX_PATTERNS` (entity type, pattern source text), verbatim. -/
def REGEX_PATTERNS : List (String × String) :=
  [("email", "\\b[A-Za-z0-9._%+-]+@[A-Za-z0-9.-]+\\.[A-Z|a-z]\x7b2,\x7d\\b"),
   ("phone", "\\+?\\d\x7b1,3\x7d[\\s\\.-]?\\(?\\d\x7b2,4\x7d\\)?[\\s\\.-]?\\d\x7b3,4\x7d[\\s\\.-]?\\d\x7b3,4\x7d"),
   ("credit_card", "\\b\\d\x7b4\x7d[\\s\\.-]?\\d\x7b4\x7d[\\s\\.-]?\\d\x7b4\x7d[\\s\\.-]?\\d\x7b4\x7d\\b"),
   ("expiry_date", "(?<!\\d/)\\b(0[1-9]|1[0-2])/(\\d\x7b2\x7d|\\d\x7b4\x7d)\\b(?!/)"),
   ("rut_chile", "\\b\\d\x7b1,2\x7d\\.\\d\x7b3\x7d\\.\\d\x7b3\x7d-[\\dkK]\\b"),
   ("ssn_us", "\\b\\d\x7b3\x7d-\\d\x7b2\x7d-\\d\x7b4\x7d\\b"),
   ("date_dmy", "\\b\\d\x7b2\x7d/\\d\x7b2\x7d/\\d\x7b4\x7d\\b"),
   ("date_ymd", "\\b\\d\x7b4\x7d-\\d\x7b2\x7d-\\d\x7b2\x7d\\b"),
   ("zip_code", "\\b\\d\x7b5\x7d(?:-\\d\x7b4\x7d)?\\b"),
   ("ip_address", "\\b(?:(?:25[0-5]|2[0-4][0-9]|[01]?[0-9][0-9]?)\\.)\x7b3\x7d(?:25[0-5]|2[0-4][0-9]|[01]?[0-9][0-9]?)\\b"),
   ("url", "https?://(?:www\\.)?[-a-zA-Z0-9@:%._\\+~#=]\x7b1,256\x7d\\.[a-zA-Z0-9()]\x7b1,6\x7d\\b(?:[-a-zA-Z0-9()@:%_\\+.~#?&/=]*)"),
   ("account_number", "\\b(?:ACC|ACCT|Account)[\\s#:]*\\d\x7b8,17\x7d\\b"),
   ("device_identifier", "\\b(?:[0-9A-F]\x7b2\x7d[:-])\x7b5\x7d(?:[0-9A-F]\x7b2\x7d)|(?:SN|Serial)[\\s#:]*[A-Z0-9]\x7b8,20\x7d\\b")]

/-- A `re` match object: start/end offsets into the searched text.  By the
`re` library contract `match.group()` is exactly the slice of the searched
text between the two, which is how the group is modelled. -/
structure ReMatch where
  mstart : Nat
  mstop : Nat
deriving DecidableEq, Repr

/-- The `re` library guarantee for a match found in `text`; the patterns of
`REGEX_PATTERNS` cannot match the empty string, hence `mstart < mstop`. -/
def reContract (text : List Char) (m : ReMatch) : Prop :=
  m.mstart < m.mstop ∧ m.mstop ≤ text.length

/-- Word characters of the `\b` assertion (ASCII model of `\w`). -/
def isWordChar (c : Char) : Bool := c.isAlphanum || c = '_'

/-- Maximal ASCII digit runs: character-by-character scan at position `i`,
carrying the currently open run as `(start, length so far)`. -/
def digitRunsAux : List Char → Nat → Option (Nat × Nat) → List (Nat × Nat)
  | [], _, none => []
  | [], _, some r => [r]
  | c :: rest, i, none =>
    if c.isDigit then digitRunsAux rest (i + 1) (some (i, 1))
    else digitRunsAux rest (i + 1) none
  | c :: rest, i, some r =>
    if c.isDigit then digitRunsAux rest (i + 1) (some (r.1, r.2 + 1))
    else r :: digitRunsAux rest (i + 1) none

/-- Maximal ASCII digit runs of a text, as `(offset, length)` pairs in
left-to-right order. -/
def digitRuns (s : List Char) : List (Nat × Nat) :=
  digitRunsAux s 0 none

/-- `re.finditer` of the pattern `\b\d{3,4}\b` over the region: a match of this pattern is exactly
a maximal digit run of length 3 or 4 with no word character adjacent on
either side (runs of other lengths allow no match position inside them, and
`\b` fails between two digits). -/
def cvvMatches (region : List Char) : List (Nat × Nat) :=
  (digitRuns region).filter (fun r =>
    (r.2 = 3 || r.2 = 4) &&
    (decide (r.1 = 0) || !isWordChar (region.getD (r.1 - 1) ' ')) &&
    (decide (r.1 + r.2 = region.length) || !isWordChar (region.getD (r.1 + r.2) ' ')))

/-- `CVV_CONTEXT_KEYWORDS`. -/
def CVV_CONTEXT_KEYWORDS : List (List Char) :=
  ["cvv".toList, "cvc".toList, "código de seguridad".toList, "security code".toList]

/-- `_detect_cvv_in_context(text)`. -/
def detect_cvv_in_context (text : List Char) : List DetectedEntity :=
  CVV_CONTEXT_KEYWORDS.flatMap (fun keyword =>
    let text_lower := toLowerL text
    match strFind text_lower keyword with
    | none => []
    | some keyword_pos =>
      let search_region := sliceL text keyword_pos (keyword_pos + 50)
      (cvvMatches search_region).map (fun m =>
        { value := sliceL search_region m.1 (m.1 + m.2)
          entity_type := "cvv"
          start := keyword_pos + m.1
          stop := keyword_pos + (m.1 + m.2) }))

/-- `detect_with_regex(text)`, with `re.finditer` over the pattern table
supplied as an oracle parameter constrained by `reContract`. -/
def detect_with_regex (finditer : String → List ReMatch) (text : List Char) :
    List DetectedEntity :=
  (REGEX_PATTERNS.flatMap (fun pat =>
    (finditer pat.2).map (fun m =>
      { value := sliceL text m.mstart m.mstop
        entity_type := pat.1
        start := m.mstart
        stop := m.mstop })))
  ++ detect_cvv_in_context text

/-! ### LLM detector (src/detection/llm_detector.py) -/

/-- `_find_entity_position(text, entity_value)`. -/
def find_entity_position (text entity_value : List Char) : Int × Int :=
  match strFind text entity_value with
  | some s => ((s : Int), (s : Int) + entity_value.length)
  | none =>
    match strFind (toLowerL text) (toLowerL entity_value) with
    | some s => ((s : Int), (s : Int) + entity_value.length)
    | none => (-1, -1)

/-- The per-extraction step of `extract_entities_with_llm`: relocate one
model-extracted `value` in the source text and build the entity, or drop it. -/
def locate_llm_entity (text value : List Char) (ty : String) :
    Option DetectedEntity :=
  let pos := find_entity_position text value
  if pos.1 ≥ 0 then
    some { value := value, entity_type := ty, start := pos.1.toNat, stop := pos.2.toNat }
  else none

/-- `_entities_overlap(e1, e2)`. -/
def entities_overlap (e1 e2 : DetectedEntity) : Bool :=
  !(decide (e1.stop ≤ e2.start) || decide (e2.stop ≤ e1.start))

/-- `merge_entities(regex_entities, llm_entities)`. -/
def merge_entities (regex_entities llm_entities : List DetectedEntity) :
    List DetectedEntity :=
  regex_entities ++
    llm_entities.filter (fun l => !(regex_entities.any (fun r => entities_overlap l r)))

/-! ### Quality check and the retry loop
(src/graph/nodes/quality_check.py, src/graph/workflow.py) -/

/-- `MAX_RETRIES`. -/
def MAX_RETRIES : Nat := 2

/-- The decision part of `quality_check_node`: given the issue list the three
checks produced, returns `(quality_passed, new retry_count)`. -/
def quality_check_update (issues_found : List String) (retry_count : Nat) :
    Bool × Nat :=
  let quality_passed := issues_found.length = 0
  (quality_passed,
   if ¬quality_passed = true ∧ retry_count < MAX_RETRIES then retry_count + 1
   else retry_count)

/-- `should_retry(state)`: the conditional edge after `quality_check`. -/
def should_retry (quality_passed : Bool) (retry_count : Nat) : String :=
  if quality_passed then "output"
  else if retry_count < MAX_RETRIES then "retry"
  else "output"

/-- Observable outcome of the anonymize/verify loop. -/
structure LoopResult where
  anonymize_runs : Nat
  retry_count : Nat
  quality_passed : Bool
  issues_found : List String
deriving DecidableEq, Repr

/-- The `anonymize → quality_check → should_retry → (retry | END)` loop of
`create_workflow`, entered at the `anonymize` node.  The issue list the
verifier reports on its `n`-th invocation is supplied by the oracle
`issues`; the state fields it returns follow `quality_check_node`
(LangGraph replaces `quality_passed`, `issues_found`, `retry_count` on each
node return). -/
def anonymize_verify_loop (issues : Nat → List String) (n retry_count : Nat) :
    LoopResult :=
  if h : should_retry (quality_check_update (issues n) retry_count).1
      (quality_check_update (issues n) retry_count).2 = "retry" then
    let rest := anonymize_verify_loop issues (n + 1)
      (quality_check_update (issues n) retry_count).2
    { rest with anonymize_runs := rest.anonymize_runs + 1 }
  else
    ⟨1, (quality_check_update (issues n) retry_count).2,
     (quality_check_update (issues n) retry_count).1, issues n⟩
termination_by MAX_RETRIES - retry_count
decreasing_by
  simp only [should_retry, quality_check_update] at h ⊢
  split_ifs at h <;> simp_all
  all_goals omega

/-! ## Claims -/

/-! ### C1: primary-regulation rule -/

lemma pci_core_any_iff (entity_types : List String) :
    pci_core_entities.any (entity_types.contains ·) = true ↔
      "credit_card" ∈ entity_types ∨ "cvv" ∈ entity_types := by
  simp [pci_core_entities]

lemma hipaa_specific_any_iff (entity_types : List String) :
    hipaa_specific_entities.any (entity_types.contains ·) = true ↔
      ∃ t ∈ hipaa_specific_entities, t ∈ entity_types := by
  simp [List.any_eq_true]

/-- C1: the primary regulation is PCI_DSS exactly when PCI_DSS is flagged and a
core payment entity type (credit_card, cvv) was observed; otherwise HIPAA
exactly when HIPAA is flagged and a HIPAA-specific entity type was observed;
otherwise GDPR (including when no regulation was flagged).  In particular a
document with only expiry_date entities (flagging PCI_DSS) and an email entity
(flagging GDPR and HIPAA) gets primary regulation GDPR. -/
theorem primary_regulation_rule :
    ∀ (flags : List Regulation) (entity_types : List String),
      ((determine_primary_regulation flags entity_types = Regulation.PCI_DSS) ↔
        (Regulation.PCI_DSS ∈ flags ∧
          ("credit_card" ∈ entity_types ∨ "cvv" ∈ entity_types))) ∧
      ((determine_primary_regulation flags entity_types = Regulation.HIPAA) ↔
        (¬(Regulation.PCI_DSS ∈ flags ∧
            ("credit_card" ∈ entity_types ∨ "cvv" ∈ entity_types)) ∧
          Regulation.HIPAA ∈ flags ∧
          ∃ t ∈ hipaa_specific_entities, t ∈ entity_types)) ∧
      ((determine_primary_regulation flags entity_types = Regulation.GDPR) ↔
        (¬(Regulation.PCI_DSS ∈ flags ∧
            ("credit_card" ∈ entity_types ∨ "cvv" ∈ entity_types)) ∧
          ¬(Regulation.HIPAA ∈ flags ∧
            ∃ t ∈ hipaa_specific_entities, t ∈ entity_types))) ∧
      determine_primary_regulation [Regulation.PCI_DSS, Regulation.GDPR, Regulation.HIPAA]
        ["expiry_date", "email"] = Regulation.GDPR := by
  intro flags entity_types
  refine ⟨?_, ?_, ?_, by decide⟩ <;>
    · unfold determine_primary_regulation
      split_ifs with h1 h2 <;>
        · simp_all [pci_core_entities, hipaa_specific_entities]
          try tauto

/-! ### C3: routing -/

/-- C3 counterexample: two states that agree on the primary regulation (GDPR)
and on the combined PCI+GDPR case (absent in both) but are routed to different
paths — the router is keyed on the set of flagged regulations, not on the
primary regulation. -/
theorem route_not_determined_by_primary :
    determine_primary_regulation [Regulation.GDPR] ["email"] =
      determine_primary_regulation [Regulation.PCI_DSS] ["expiry_date"] ∧
    ¬(Regulation.PCI_DSS ∈ [Regulation.GDPR] ∧
        Regulation.GDPR ∈ [Regulation.GDPR]) ∧
    ¬(Regulation.PCI_DSS ∈ [Regulation.PCI_DSS] ∧
        Regulation.GDPR ∈ [Regulation.PCI_DSS]) ∧
    determine_regulation_path [Regulation.GDPR] ≠
      determine_regulation_path [Regulation.PCI_DSS] := by
  decide

/-- C3 (amended): the path chosen by the routing step is a function of the set
of flagged regulations — combined PCI_DSS+GDPR, else PCI_DSS, else HIPAA, else
GDPR, else (no flag) escalation, each characterized exactly — and whatever the
path, the workflow maps it to a justify node that runs the same node function
(`justify_strategies`, whose strategy resolution is governed by the primary
regulation alone) and whose sole outgoing edge is `anonymize`: the branching
selects no distinct downstream behavior. -/
theorem route_characterization :
    ∀ flags : List Regulation,
      ((determine_regulation_path flags = "pci_gdpr_path") ↔
        (Regulation.PCI_DSS ∈ flags ∧ Regulation.GDPR ∈ flags)) ∧
      ((determine_regulation_path flags = "pci_path") ↔
        (Regulation.PCI_DSS ∈ flags ∧ Regulation.GDPR ∉ flags)) ∧
      ((determine_regulation_path flags = "hipaa_path") ↔
        (Regulation.PCI_DSS ∉ flags ∧ Regulation.HIPAA ∈ flags)) ∧
      ((determine_regulation_path flags = "gdpr_path") ↔
        (Regulation.PCI_DSS ∉ flags ∧ Regulation.HIPAA ∉ flags ∧
          Regulation.GDPR ∈ flags)) ∧
      ((determine_regulation_path flags = "escalation_path") ↔
        (Regulation.PCI_DSS ∉ flags ∧ Regulation.HIPAA ∉ flags ∧
          Regulation.GDPR ∉ flags)) ∧
      (∃ target,
        route_targets.lookup (determine_regulation_path flags) = some target ∧
        justify_node_fns.lookup target = some justify_strategies ∧
        justify_successors.lookup target = some "anonymize") := by
  intro flags
  have hmem : Regulation.PCI_DSS ∉ flags → Regulation.HIPAA ∉ flags →
      Regulation.GDPR ∉ flags → flags.length = 0 := by
    intro h1 h2 h3
    cases hf : flags with
    | nil => rfl
    | cons r rest =>
      exfalso
      cases r <;> simp_all
  unfold determine_regulation_path
  split_ifs with h1 h2 h3 h4 h5
  · exact ⟨by simp_all, by simp_all; try tauto, by simp_all; try tauto,
      by simp_all; try tauto, by simp_all; try tauto, "justify_pci", rfl, rfl, rfl⟩
  · exact ⟨by simp_all; try tauto, by simp_all; try tauto, by simp_all; try tauto,
      by simp_all; try tauto, by simp_all; try tauto, "justify_pci", rfl, rfl, rfl⟩
  · exact ⟨by simp_all; try tauto, by simp_all; try tauto, by simp_all; try tauto,
      by simp_all; try tauto, by simp_all; try tauto, "justify_hipaa", rfl, rfl, rfl⟩
  · exact ⟨by simp_all; try tauto, by simp_all; try tauto, by simp_all; try tauto,
      by simp_all; try tauto, by simp_all; try tauto, "justify_gdpr", rfl, rfl, rfl⟩
  · have hnil : flags = [] := List.length_eq_zero.mp h5
    subst hnil
    exact ⟨by simp_all, by simp_all, by simp_all, by simp_all, by simp_all,
      "justify_gdpr", rfl, rfl, rfl⟩
  · exact absurd (hmem (by tauto) h3 h4) h5

/-! ### C8: mask_email shape -/

/-- The output shape asserted by the spec for `mask_email` (stated from the words
of the spec, for comparison with the source function): domain unchanged, and
the local part is the original first character, one or more asterisks, and the
original last character. -/
def mask_email_spec_shape (email out : List Char) : Prop :=
  email_domain out = email_domain email ∧
  3 ≤ (email_local out).length ∧
  (email_local out).headD ' ' = (email_local email).headD ' ' ∧
  (email_local out).getLastD ' ' = (email_local email).getLastD ' ' ∧
  ((email_local out).drop 1).dropLast.all (· = '*') = true

/-- C8 counterexample: on a 2-character local part the code produces
`a*@x.com`, whose local part drops the original last character and has
length 2 — not of the first-char/asterisks/last-char shape the claim asserts
for every input containing an `'@'`. -/
instance (email out : List Char) : Decidable (mask_email_spec_shape email out) := by
  unfold mask_email_spec_shape; infer_instance

theorem mask_email_short_local_counterexample :
    mask_email "ab@x.com".toList = some "a*@x.com".toList ∧
    ¬ mask_email_spec_shape "ab@x.com".toList "a*@x.com".toList := by
  decide

/-- C8 (amended): for every input containing `'@'` whose local part has at
least 3 characters, `mask_email` keeps the domain (everything after the first
`'@'`) unchanged and returns first character + `"***"` + last character of the
local part, satisfying the claimed shape; `mask_email("jsmith@example.com")`
is `j***h@example.com`.  (For local parts of length 1 or 2 the code returns
first character + `"*"` with no final character, and for an empty local part
it raises `IndexError`.) -/
theorem mask_email_amended :
    (∀ email : List Char, '@' ∈ email → 3 ≤ (email_local email).length →
      mask_email email =
        some ((email_local email).headD ' ' :: '*' :: '*' :: '*' ::
          (email_local email).getLastD ' ' :: '@' :: email_domain email) ∧
      mask_email_spec_shape email
        ((email_local email).headD ' ' :: '*' :: '*' :: '*' ::
          (email_local email).getLastD ' ' :: '@' :: email_domain email)) ∧
    mask_email "jsmith@example.com".toList = some "j***h@example.com".toList := by
  constructor
  · intro email hat hlen
    have hcontains : email.contains '@' = true := by
      simpa [List.elem_iff] using hat
    have hcmem : ∀ x ∈ email_local email, x ≠ '@' := by
      intro x hx
      simpa using List.mem_takeWhile_imp (p := fun y => decide (y ≠ '@')) hx
    cases hl : email_local email with
    | nil => rw [hl] at hlen; simp at hlen
    | cons c rest =>
      rw [hl] at hlen hcmem
      have hc : c ≠ '@' := hcmem c (List.mem_cons_self c rest)
      have hL : rest.getLastD c ≠ '@' := by
        have hm := List.getLast_mem (List.cons_ne_nil c rest)
        rw [List.getLast_eq_getLastD] at hm
        exact hcmem _ hm
      have hL2 : rest.getLast?.getD c ≠ '@' := by
        simpa [List.getLastD_eq_getLast?] using hL
      have hlen1 : ¬ rest.length ≤ 1 := by
        simp only [List.length_cons] at hlen; omega
      have hout : mask_email email =
          some (c :: '*' :: '*' :: '*' :: rest.getLastD c :: '@' ::
            email_domain email) := by
        unfold mask_email
        rw [if_neg (not_not_intro hcontains), hl]
        simp [List.getLast_eq_getLastD, hlen1]
      simp only [List.headD_cons, List.getLastD_cons]
      have hlocal_out : email_local
          (c :: '*' :: '*' :: '*' :: rest.getLastD c :: '@' :: email_domain email) =
          [c, '*', '*', '*', rest.getLastD c] := by
        unfold email_local
        simp [List.takeWhile_cons, hc, hL, hL2]
      have hdom_out : email_domain
          (c :: '*' :: '*' :: '*' :: rest.getLastD c :: '@' :: email_domain email) =
          email_domain email := by
        unfold email_domain
        simp [List.dropWhile_cons, hc, hL, hL2]
      refine ⟨hout, ?_⟩
      unfold mask_email_spec_shape
      rw [hlocal_out, hdom_out, hl]
      refine ⟨rfl, by simp, by simp, ?_, by simp⟩
      simp only [← List.getLastD_eq_getLast?, List.getLastD_cons, List.getLastD_nil]
  · decide

/-- C8 amended-claim witness at `jsmith@example.com`. -/
theorem mask_email_amended_witness :
    mask_email "jsmith@example.com".toList =
      some ((email_local "jsmith@example.com".toList).headD ' ' :: '*' :: '*' :: '*' ::
        (email_local "jsmith@example.com".toList).getLastD ' ' :: '@' ::
        email_domain "jsmith@example.com".toList) ∧
    mask_email_spec_shape "jsmith@example.com".toList
      ((email_local "jsmith@example.com".toList).headD ' ' :: '*' :: '*' :: '*' ::
        (email_local "jsmith@example.com".toList).getLastD ' ' :: '@' ::
        email_domain "jsmith@example.com".toList) :=
  mask_email_amended.1 "jsmith@example.com".toList (by decide) (by decide)

/-! ### C10: totality of apply_technique -/

lemma mask_email_isSome (email : List Char)
    (h : ¬('@' ∈ email ∧ email_local email = [])) :
    (mask_email email).isSome := by
  unfold mask_email
  split_ifs with hc
  · have hmem : '@' ∈ email := by
      simpa [List.elem_iff] using hc
    cases hl : email_local email with
    | nil => exact absurd ⟨hmem, hl⟩ h
    | cons c rest => simp
  · simp

/-- C10 counterexample: `apply_technique` is not total — for an email-typed
value whose local part is empty, the masking branch reaches `local[0]` on an
empty string and raises `IndexError` (modelled as `none`). -/
theorem apply_technique_email_crash :
    apply_technique "@x.com".toList "email" "masking" [] = none := by
  decide

/-- C10 (amended): `apply_technique` never raises except when technique
`masking` meets entity type `email` and a value containing `'@'` with an empty
local part (where `mask_email` raises `IndexError`); in every other case it
returns a string, and whenever the technique is not one of the seven
recognized techniques it returns the placeholder
`[<ENTITY_TYPE>_ANONYMIZED]` with the entity type uppercased. -/
theorem apply_technique_amended :
    (∀ (value : List Char) (e_type technique : String) (st : PseudoState),
      technique ∉ recognized_techniques →
      apply_technique value e_type technique st =
        some ("[".toList ++ toUpperL e_type.toList ++ "_ANONYMIZED]".toList, st)) ∧
    (∀ (value : List Char) (e_type technique : String) (st : PseudoState),
      ¬(technique = "masking" ∧ e_type = "email" ∧
          '@' ∈ value ∧ email_local value = []) →
      (apply_technique value e_type technique st).isSome) := by
  constructor
  · intro value e_type technique st h
    simp only [recognized_techniques, List.mem_cons, List.not_mem_nil, or_false,
      not_or] at h
    obtain ⟨h1, h2, h3, h4, h5, h6, h7⟩ := h
    unfold apply_technique
    rw [if_neg h1, if_neg h2, if_neg h3, if_neg h4, if_neg h5, if_neg h6, if_neg h7]
  · intro value e_type technique st h
    by_cases h1 : technique = "masking"
    · subst h1
      by_cases h2 : e_type = "email"
      · subst h2
        unfold apply_technique
        rw [if_pos rfl, if_pos rfl]
        have hs := mask_email_isSome value (fun hx => h ⟨rfl, rfl, hx.1, hx.2⟩)
        cases hv : mask_email value with
        | none => rw [hv] at hs; simp at hs
        | some r => simp [hv]
      · unfold apply_technique
        split_ifs <;> simp
    · unfold apply_technique
      split_ifs <;> simp

/-- C10 amended-claim witness: an unrecognized technique gets the placeholder,
and a recognized technique on an ordinary value succeeds. -/
theorem apply_technique_amended_witness :
    apply_technique "x".toList "foo" "bar" [] =
      some ("[".toList ++ toUpperL "foo".toList ++ "_ANONYMIZED]".toList, []) ∧
    (apply_technique "1234".toList "credit_card" "masking" []).isSome :=
  ⟨apply_technique_amended.1 "x".toList "foo" "bar" [] (by decide),
   apply_technique_amended.2 "1234".toList "credit_card" "masking" [] (by decide)⟩

/-! ### C2: bounded retry termination -/

/-- C2 counterexample: with a verifier that reports an issue on every
invocation, the loop executes the anonymize step exactly 2 times
(`MAX_RETRIES` total executions, i.e. 1 retry), not the 3 total executions
(2 retries) the claim asserts: `quality_check_node` increments `retry_count`
before `should_retry` compares it to `MAX_RETRIES`. -/
theorem retry_loop_two_runs :
    anonymize_verify_loop (fun _ => ["leak"]) 0 0 =
      ⟨2, 2, false, ["leak"]⟩ ∧ (2 : Nat) ≠ 3 := by
  constructor
  · rw [anonymize_verify_loop, dif_pos (by decide)]
    rw [anonymize_verify_loop, dif_neg (by decide)]
    decide
  · decide

/-- C2 (amended): with a verifier that reports at least one issue on every
invocation, the pipeline still terminates (the loop function is total), after
exactly `MAX_RETRIES` total executions of the anonymize step (i.e.
`MAX_RETRIES - 1` retries); the final state has `quality_passed = false`,
`retry_count = MAX_RETRIES`, and the issue list of the last verification
preserved. -/
theorem retry_loop_amended :
    ∀ (issues : Nat → List String), (∀ n, issues n ≠ []) →
      ∀ n, anonymize_verify_loop issues n 0 =
        ⟨MAX_RETRIES, MAX_RETRIES, false, issues (n + 1)⟩ := by
  intro issues h n
  have h0 := h n
  have h1 := h (n + 1)
  rw [anonymize_verify_loop,
    dif_pos (by simp [should_retry, quality_check_update, MAX_RETRIES, h0])]
  rw [anonymize_verify_loop,
    dif_neg (by simp [should_retry, quality_check_update, MAX_RETRIES, h0, h1])]
  simp [quality_check_update, MAX_RETRIES, h0, h1]

/-- C2 amended-claim witness at an always-failing verifier. -/
theorem retry_loop_amended_witness :
    anonymize_verify_loop (fun _ => ["residual PII"]) 0 0 =
      ⟨MAX_RETRIES, MAX_RETRIES, false, ["residual PII"]⟩ :=
  retry_loop_amended (fun _ => ["residual PII"]) (fun _ => by simp) 0

/-! ### C6: pseudonym stability -/

/-- A sequence of further `pseudonymize_name` calls, threading the counter. -/
def run_pseudonym_calls (calls : List (List Char)) (st : PseudoState) : PseudoState :=
  calls.foldl (fun s v => (pseudonymize_name v s).2) st

lemma pseudonymize_preserves_lookup (v : List Char) (st : PseudoState)
    (k : List Char) (n : Nat) (h : st.lookup k = some n) :
    ((pseudonymize_name v st).2).lookup k = some n := by
  unfold pseudonymize_name
  cases hv : st.lookup (pseudonym_key v) with
  | some m => simpa [hv] using h
  | none => simp [hv, List.lookup_append, h]

lemma run_preserves_lookup (calls : List (List Char)) (st : PseudoState)
    (k : List Char) (n : Nat) (h : st.lookup k = some n) :
    (run_pseudonym_calls calls st).lookup k = some n := by
  induction calls generalizing st with
  | nil => exact h
  | cons c rest ih =>
    exact ih _ (pseudonymize_preserves_lookup c st k n h)

lemma pseudonymize_label (v : List Char) (st : PseudoState) :
    ∃ n, ((pseudonymize_name v st).2).lookup (pseudonym_key v) = some n ∧
      (pseudonymize_name v st).1 = "Subject".toList ++ '-' :: pad3 n := by
  unfold pseudonymize_name
  cases hv : st.lookup (pseudonym_key v) with
  | some m => exact ⟨m, by simp [hv], by simp [hv]⟩
  | none => exact ⟨st.length + 1, by simp [hv, List.lookup_append], by simp [hv]⟩

/-- C6: within one run of the pseudonym counter, two calls whose arguments
agree after lowercasing and trimming receive the identical label, whatever
other calls happen in between; and the first call of a fresh run (right after
`reset_pseudonym_counter`) yields `Subject-001`. -/
theorem pseudonym_stability :
    (∀ (st : PseudoState) (v1 v2 : List Char) (mid : List (List Char)),
      pseudonym_key v1 = pseudonym_key v2 →
      (pseudonymize_name v2
        (run_pseudonym_calls mid (pseudonymize_name v1 st).2)).1 =
        (pseudonymize_name v1 st).1) ∧
    (∀ v : List Char,
      (pseudonymize_name v reset_pseudonym_counter).1 = "Subject-001".toList) := by
  constructor
  · intro st v1 v2 mid hk
    obtain ⟨n, hlook, hlab⟩ := pseudonymize_label v1 st
    have hmid := run_preserves_lookup mid _ _ _ hlook
    set s2 := run_pseudonym_calls mid (pseudonymize_name v1 st).2 with hs2
    rw [hlab]
    simp only [pseudonymize_name]
    rw [← hk, hmid]
  · intro v
    rfl

/-- C6 witness: `"Juan Pérez"` and `" juan pérez "` (equal after lowercasing
and trimming) get the same label across an intervening call, and the first
call of a run yields `Subject-001`. -/
theorem pseudonym_stability_witness :
    (pseudonymize_name " juan pérez ".toList
      (run_pseudonym_calls ["Otro Nombre".toList]
        (pseudonymize_name "Juan Pérez".toList reset_pseudonym_counter).2)).1 =
      (pseudonymize_name "Juan Pérez".toList reset_pseudonym_counter).1 ∧
    (pseudonymize_name "Juan Pérez".toList reset_pseudonym_counter).1 =
      "Subject-001".toList :=
  ⟨pseudonym_stability.1 reset_pseudonym_counter "Juan Pérez".toList
      " juan pérez ".toList ["Otro Nombre".toList] (by decide),
   pseudonym_stability.2 "Juan Pérez".toList⟩

/-! ### C7: merge semantics -/

lemma entities_overlap_iff_common_point (x r : DetectedEntity)
    (hx : x.start < x.stop) (hr : r.start < r.stop) :
    entities_overlap x r = true ↔
      ∃ i : Nat, (x.start ≤ i ∧ i < x.stop) ∧ (r.start ≤ i ∧ i < r.stop) := by
  unfold entities_overlap
  simp only [Bool.not_eq_true', Bool.or_eq_false_iff, decide_eq_false_iff_not,
    not_le]
  constructor
  · intro h
    exact ⟨max x.start r.start, ⟨Nat.le_max_left _ _, by omega⟩,
      ⟨Nat.le_max_right _ _, by omega⟩⟩
  · rintro ⟨i, ⟨h1, h2⟩, h3, h4⟩
    omega

/-- C7: the merged detection result contains every deterministic (regex)
entity unconditionally, and contains a model-extracted entity exactly when its
half-open offset range shares no point with the range of any regex entity;
nothing else is in the result.  (Detector-produced entities have nonempty
spans, `start < end`.) -/
theorem merge_entities_membership :
    ∀ (regex_entities llm_entities : List DetectedEntity),
      (∀ e ∈ regex_entities, e.start < e.stop) →
      (∀ e ∈ llm_entities, e.start < e.stop) →
      ∀ x, x ∈ merge_entities regex_entities llm_entities ↔
        (x ∈ regex_entities ∨
          (x ∈ llm_entities ∧ ∀ r ∈ regex_entities,
            ¬∃ i : Nat, (x.start ≤ i ∧ i < x.stop) ∧
              (r.start ≤ i ∧ i < r.stop))) := by
  intro R L hR hL x
  unfold merge_entities
  rw [List.mem_append, List.mem_filter]
  constructor
  · rintro (hx | ⟨hxL, hpred⟩)
    · exact Or.inl hx
    · refine Or.inr ⟨hxL, fun r hr hex => ?_⟩
      rw [Bool.not_eq_true', List.any_eq_false] at hpred
      exact absurd ((entities_overlap_iff_common_point x r (hL x hxL)
        (hR r hr)).mpr hex) (by simp [hpred r hr])
  · rintro (hx | ⟨hxL, hdisj⟩)
    · exact Or.inl hx
    · refine Or.inr ⟨hxL, ?_⟩
      rw [Bool.not_eq_true', List.any_eq_false]
      intro r hr
      by_contra hov
      exact hdisj r hr ((entities_overlap_iff_common_point x r (hL x hxL)
        (hR r hr)).mp hov)

/-- C7 witness: one regex entity, one overlapping and one disjoint LLM entity. -/
theorem merge_entities_membership_witness :
    ⟨"Lima".toList, "address", 0, 4⟩ ∈
      merge_entities [⟨"4111".toList, "credit_card", 10, 14⟩]
        [⟨"Juan".toList, "person_name", 12, 16⟩,
         ⟨"Lima".toList, "address", 0, 4⟩] ↔
      (⟨"Lima".toList, "address", 0, 4⟩ ∈
          ([⟨"4111".toList, "credit_card", 10, 14⟩] : List DetectedEntity) ∨
        (⟨"Lima".toList, "address", 0, 4⟩ ∈
            ([⟨"Juan".toList, "person_name", 12, 16⟩,
              ⟨"Lima".toList, "address", 0, 4⟩] : List DetectedEntity) ∧
          ∀ r ∈ ([⟨"4111".toList, "credit_card", 10, 14⟩] : List DetectedEntity),
            ¬∃ i : Nat, ((0 : Nat) ≤ i ∧ i < 4) ∧ (r.start ≤ i ∧ i < r.stop))) :=
  merge_entities_membership
    [⟨"4111".toList, "credit_card", 10, 14⟩]
    [⟨"Juan".toList, "person_name", 12, 16⟩, ⟨"Lima".toList, "address", 0, 4⟩]
    (by decide) (by decide) ⟨"Lima".toList, "address", 0, 4⟩

/-! ### C5: offset validity of detection -/

/-- The offset-validity property of the spec for a detected entity
(`0 ≤ start` is automatic in the `Nat` model). -/
def valid_offsets (text : List Char) (e : DetectedEntity) : Prop :=
  e.start < e.stop ∧ e.stop ≤ text.length ∧ sliceL text e.start e.stop = e.value

instance (text : List Char) (e : DetectedEntity) :
    Decidable (valid_offsets text e) := by
  unfold valid_offsets; infer_instance

lemma strFind_spec (hay needle : List Char) (i : Nat)
    (h : strFind hay needle = some i) :
    i + needle.length ≤ hay.length ∧ sliceL hay i (i + needle.length) = needle := by
  induction hay generalizing i with
  | nil =>
    cases needle with
    | nil =>
      simp only [strFind, Option.some.injEq] at h
      subst h
      exact ⟨by simp, rfl⟩
    | cons n0 ns => simp [strFind] at h
  | cons c rest ih =>
    cases needle with
    | nil =>
      simp only [strFind, Option.some.injEq] at h
      subst h
      exact ⟨by simp, by simp [sliceL]⟩
    | cons n0 ns =>
      rw [show strFind (c :: rest) (n0 :: ns) =
            if (n0 :: ns).isPrefixOf (c :: rest) then some 0
            else (strFind rest (n0 :: ns)).map (· + 1) from rfl] at h
      split_ifs at h with hp
      · simp only [Option.some.injEq] at h
        subst h
        have hpre : (n0 :: ns) <+: (c :: rest) := by simpa using hp
        refine ⟨by simpa using hpre.length_le, ?_⟩
        simp only [sliceL, Nat.zero_add, List.drop_zero, Nat.sub_zero]
        exact (List.prefix_iff_eq_take.mp hpre).symm
      · simp only [Option.map_eq_some'] at h
        obtain ⟨j, hj, rfl⟩ := h
        obtain ⟨hlen, hslice⟩ := ih j hj
        refine ⟨by simpa [Nat.add_right_comm] using Nat.add_le_add_right hlen 1, ?_⟩
        simpa [sliceL, List.drop_succ_cons, Nat.add_right_comm] using hslice

lemma containsL_of_strFind {hay needle : List Char} {i : Nat}
    (h : strFind hay needle = some i) : containsL hay needle = true := by
  simp [containsL, h]

lemma toLowerL_length (s : List Char) : (toLowerL s).length = s.length := by
  simp [toLowerL]

lemma sliceL_length (s : List Char) (a b : Nat) :
    (sliceL s a b).length = min (b - a) (s.length - a) := by
  simp [sliceL]

lemma sliceL_sliceL (s : List Char) (a b c d : Nat) (h : d ≤ b - a) :
    sliceL (sliceL s a b) c d = sliceL s (a + c) (a + d) := by
  unfold sliceL
  rw [List.drop_take, List.take_take, List.drop_drop]
  congr 1
  omega

lemma digitRunsAux_bounds :
    ∀ (s : List Char) (i : Nat) (st : Option (Nat × Nat)),
      (∀ r0, st = some r0 → r0.1 + r0.2 = i) →
      ∀ p ∈ digitRunsAux s i st, p.1 + p.2 ≤ i + s.length := by
  intro s
  induction s with
  | nil =>
    intro i st hst p hp
    cases st with
    | none => simp [digitRunsAux] at hp
    | some r =>
      simp only [digitRunsAux, List.mem_singleton] at hp
      subst hp
      have := hst p rfl
      simp [this]
  | cons c rest ih =>
    intro i st hst p hp
    cases st with
    | none =>
      rw [digitRunsAux] at hp
      split_ifs at hp with hd
      · have := ih (i + 1) (some (i, 1)) (by intro r0 h0; cases h0; rfl) p hp
        simpa [Nat.add_right_comm] using this
      · have := ih (i + 1) none (by intro r0 h0; cases h0) p hp
        simpa [Nat.add_right_comm] using this
    | some r =>
      rw [digitRunsAux] at hp
      split_ifs at hp with hd
      · have := ih (i + 1) (some (r.1, r.2 + 1))
          (by intro r0 h0; cases h0; have := hst r rfl; simp only; omega) p hp
        simpa [Nat.add_right_comm] using this
      · rcases List.mem_cons.mp hp with rfl | hrest
        · have := hst p rfl
          simp only [List.length_cons]
          omega
        · have := ih (i + 1) none (by intro r0 h0; cases h0) p hrest
          simpa [Nat.add_right_comm] using this

lemma digitRuns_bounds (s : List Char) :
    ∀ p ∈ digitRuns s, p.1 + p.2 ≤ s.length := by
  intro p hp
  simpa using digitRunsAux_bounds s 0 none (by intro r0 h0; cases h0) p hp

lemma cvvMatches_bounds (region : List Char) :
    ∀ m ∈ cvvMatches region, 1 ≤ m.2 ∧ m.1 + m.2 ≤ region.length := by
  intro m hm
  rw [cvvMatches, List.mem_filter] at hm
  obtain ⟨hruns, hcond⟩ := hm
  have hb := digitRuns_bounds region m hruns
  simp only [Bool.and_eq_true, Bool.or_eq_true, decide_eq_true_eq] at hcond
  obtain ⟨⟨hlen, -⟩, -⟩ := hcond
  rcases hlen with h3 | h4 <;> simp_all

lemma detect_cvv_valid (text : List Char) :
    ∀ e ∈ detect_cvv_in_context text, valid_offsets text e := by
  intro e he
  simp only [detect_cvv_in_context, List.mem_flatMap] at he
  obtain ⟨keyword, -, he⟩ := he
  cases hfind : strFind (toLowerL text) keyword with
  | none => rw [hfind] at he; simp at he
  | some kp =>
    rw [hfind] at he
    simp only [List.mem_map] at he
    obtain ⟨m, hm, rfl⟩ := he
    have hkp : kp + keyword.length ≤ text.length := by
      have := (strFind_spec _ _ _ hfind).1
      rwa [toLowerL_length] at this
    obtain ⟨hm1, hm2⟩ := cvvMatches_bounds _ m hm
    have hreg : (sliceL text kp (kp + 50)).length = min 50 (text.length - kp) := by
      rw [sliceL_length]
      congr 1
      omega
    rw [hreg] at hm2
    have hm3 : m.1 + m.2 ≤ text.length - kp := le_trans hm2 (min_le_right _ _)
    have hm4 : m.1 + m.2 ≤ 50 := le_trans hm2 (min_le_left _ _)
    refine ⟨by simp; omega, by simp; omega, ?_⟩
    have hss := sliceL_sliceL text kp (kp + 50) m.1 (m.1 + m.2) (by omega)
    simp only [valid_offsets]
    rw [← Nat.add_assoc] at hss ⊢
    rw [← hss]

/-- `detect_with_regex` builds its pattern-pass entities directly from the
match objects, so their validity is inherited from the `re` contract; the CVV
context pass is fully concrete. -/
lemma detect_with_regex_valid (text : List Char)
    (finditer : String → List ReMatch)
    (hf : ∀ pat m, m ∈ finditer pat → reContract text m) :
    ∀ e ∈ detect_with_regex finditer text, valid_offsets text e := by
  intro e he
  rw [detect_with_regex, List.mem_append] at he
  rcases he with he | he
  · rw [List.mem_flatMap] at he
    obtain ⟨pat, -, he⟩ := he
    rw [List.mem_map] at he
    obtain ⟨m, hm, rfl⟩ := he
    obtain ⟨h1, h2⟩ := hf pat.2 m hm
    exact ⟨h1, h2, rfl⟩
  · exact detect_cvv_valid text e he

/-- C5 counterexample: a model-extracted value relocated by the
case-insensitive branch is stored with the casing produced by the model, so the text
slice at the recorded offsets differs from the stored value — offset validity
fails as stated. -/
theorem llm_relocation_value_mismatch :
    locate_llm_entity "JUAN PEREZ llamó".toList "Juan Perez".toList "person_name" =
      some ⟨"Juan Perez".toList, "person_name", 0, 10⟩ ∧
    ¬ valid_offsets "JUAN PEREZ llamó".toList
        ⟨"Juan Perez".toList, "person_name", 0, 10⟩ := by
  decide

/-- C5 (amended): entities from the regex pass (under the `re` library
contract for its match objects) and from the CVV context pass satisfy full
offset validity — `0 ≤ start < end ≤ len(text)` and
`text[start:end] == value`.  For an entity built by relocating a nonempty
model-extracted value, the offsets are in range and the text slice matches the
value up to lowercasing; the slice equals the value exactly whenever the
exact-match branch located it. -/
theorem detection_offset_validity :
    (∀ (text : List Char) (finditer : String → List ReMatch),
      (∀ pat m, m ∈ finditer pat → reContract text m) →
      ∀ e ∈ detect_with_regex finditer text, valid_offsets text e) ∧
    (∀ (text value : List Char) (ty : String) (e : DetectedEntity),
      locate_llm_entity text value ty = some e →
      value ≠ [] →
      e.start < e.stop ∧ e.stop ≤ text.length ∧
        toLowerL (sliceL text e.start e.stop) = toLowerL e.value ∧
        (∀ i, strFind text value = some i → sliceL text e.start e.stop = e.value)) := by
  constructor
  · exact detect_with_regex_valid
  · intro text value ty e hloc hne
    have hvlen : 1 ≤ value.length := by
      cases value with
      | nil => exact absurd rfl hne
      | cons a l => simp
    unfold locate_llm_entity find_entity_position at hloc
    cases hexact : strFind text value with
    | some s =>
      rw [hexact] at hloc
      simp only [ge_iff_le, Int.toNat_ofNat] at hloc
      rw [if_pos (by positivity)] at hloc
      obtain rfl := (Option.some.injEq _ _).mp hloc
      obtain ⟨hlen, hslice⟩ := strFind_spec _ _ _ hexact
      simp only [Int.toNat_ofNat]
      have hcast : ((s : Int) + (value.length : Int)).toNat = s + value.length := by
        omega
      rw [hcast]
      exact ⟨by omega, hlen, by rw [hslice], fun i _ => hslice⟩
    | none =>
      rw [hexact] at hloc
      cases hlow : strFind (toLowerL text) (toLowerL value) with
      | none => rw [hlow] at hloc; simp at hloc
      | some s =>
        rw [hlow] at hloc
        simp only [ge_iff_le, Int.toNat_ofNat] at hloc
        rw [if_pos (by positivity)] at hloc
        obtain rfl := (Option.some.injEq _ _).mp hloc
        obtain ⟨hlen, hslice⟩ := strFind_spec _ _ _ hlow
        rw [toLowerL_length, toLowerL_length] at hlen
        simp only [Int.toNat_ofNat]
        have hcast : ((s : Int) + (value.length : Int)).toNat = s + value.length := by
          omega
        rw [hcast]
        refine ⟨by omega, hlen, ?_, fun i hi => by simp [hexact] at hi⟩
        rw [show toLowerL (sliceL text s (s + value.length)) =
            sliceL (toLowerL text) s (s + value.length) by
          simp [toLowerL, sliceL, List.map_take, List.map_drop]]
        rw [toLowerL_length] at hslice
        exact hslice

/-- C5 amended-claim witness: a concrete CVV-context detection (with an empty
regex-oracle result) and a concrete exact-branch LLM relocation. -/
theorem detection_offset_validity_witness :
    valid_offsets "cvv: 123".toList ⟨"123".toList, "cvv", 5, 8⟩ ∧
    ((0 : Nat) < 4 ∧ (4 : Nat) ≤ "Juan".toList.length ∧
      toLowerL (sliceL "Juan".toList 0 4) = toLowerL "Juan".toList ∧
      (∀ i, strFind "Juan".toList "Juan".toList = some i →
        sliceL "Juan".toList 0 4 = "Juan".toList)) :=
  ⟨detection_offset_validity.1 "cvv: 123".toList (fun _ => [])
      (fun _ m hm => absurd hm (List.not_mem_nil m))
      ⟨"123".toList, "cvv", 5, 8⟩ (by decide),
   detection_offset_validity.2 "Juan".toList "Juan".toList "person_name"
      ⟨"Juan".toList, "person_name", 0, 4⟩ (by decide) (by decide)⟩

/-! ### C9: fallback strategy in the anonymize node -/

/-- The label shape produced by `pseudonymize_name`. -/
def subject_label (n : Nat) : List Char := "Subject".toList ++ '-' :: pad3 n

lemma anonStep_log (strategies : List (List Char × JustifyStrategy))
    (acc acc1 : List Char × List LogEntry × PseudoState) (e : ClassifiedEntity)
    (h : anonStep strategies acc e = some acc1) :
    ∃ en, acc1.2.1 = acc.2.1 ++ [en] := by
  simp only [anonStep] at h
  split_ifs at h with hk
  · exact ⟨_, by simpa using (congrArg (fun x => x.2.1) (Option.some.injEq _ _ |>.mp h)).symm⟩
  · obtain ⟨rs, -, rfl⟩ := Option.map_eq_some'.mp h
    exact ⟨_, rfl⟩

lemma foldlM_log_mono (strategies : List (List Char × JustifyStrategy)) :
    ∀ (es : List ClassifiedEntity) (acc r : List Char × List LogEntry × PseudoState),
      es.foldlM (anonStep strategies) acc = some r →
      ∃ suffix, r.2.1 = acc.2.1 ++ suffix := by
  intro es
  induction es with
  | nil =>
    intro acc r h
    simp only [List.foldlM_nil, pure, Option.some.injEq] at h
    exact ⟨[], by simp [← h]⟩
  | cons x xs ih =>
    intro acc r h
    rw [List.foldlM_cons] at h
    cases hstep : anonStep strategies acc x with
    | none => rw [hstep] at h; simp at h
    | some acc1 =>
      rw [hstep] at h
      simp only [Option.bind_eq_bind, Option.some_bind] at h
      obtain ⟨en, hen⟩ := anonStep_log strategies acc acc1 x hstep
      obtain ⟨suffix, hs⟩ := ih acc1 r h
      exact ⟨[en] ++ suffix, by rw [hs, hen, List.append_assoc]⟩

lemma anonStep_missing (strategies : List (List Char × JustifyStrategy))
    (acc : List Char × List LogEntry × PseudoState) (e : ClassifiedEntity)
    (hmiss : strategies.lookup e.value_detected = none) :
    ∃ n st', anonStep strategies acc e = some
      (acc.1.take e.start ++ subject_label n ++ acc.1.drop e.stop,
       acc.2.1 ++ [⟨e.value_detected, subject_label n, "pseudonymization",
          e.entity_type, e.start, none⟩],
       st') := by
  have htech : technique_for strategies e.value_detected = "pseudonymization" := by
    simp [technique_for, hmiss]
  obtain ⟨n, -, hlab⟩ := pseudonymize_label e.value_detected acc.2.2
  refine ⟨n, (pseudonymize_name e.value_detected acc.2.2).2, ?_⟩
  simp only [anonStep]
  rw [htech, if_neg (by decide)]
  have happ : apply_technique e.value_detected e.entity_type "pseudonymization"
      acc.2.2 = some (pseudonymize_name e.value_detected acc.2.2) := by
    unfold apply_technique
    rw [if_neg (by decide), if_neg (by decide), if_pos rfl]
  rw [happ, Option.map_some']
  rw [show subject_label n = (pseudonymize_name e.value_detected acc.2.2).1 from hlab.symm]

lemma anonFold_missing (strategies : List (List Char × JustifyStrategy)) :
    ∀ (es : List ClassifiedEntity) (acc r : List Char × List LogEntry × PseudoState),
      es.foldlM (anonStep strategies) acc = some r →
      ∀ e ∈ es, strategies.lookup e.value_detected = none →
        ∃ en ∈ r.2.1, en.original = e.value_detected ∧
          en.technique = "pseudonymization" ∧ en.kept_reason = none ∧
          ∃ n, en.anonymized = subject_label n := by
  intro es
  induction es with
  | nil => intro acc r _ e he; cases he
  | cons x xs ih =>
    intro acc r h e he hmiss
    rw [List.foldlM_cons] at h
    cases hstep : anonStep strategies acc x with
    | none => rw [hstep] at h; simp at h
    | some acc1 =>
      rw [hstep] at h
      simp only [Option.bind_eq_bind, Option.some_bind] at h
      rcases List.mem_cons.mp he with rfl | hxs
      · obtain ⟨n, st', hform⟩ := anonStep_missing strategies acc e hmiss
        rw [hform] at hstep
        obtain rfl := (Option.some.injEq _ _).mp hstep
        obtain ⟨suffix, hs⟩ := foldlM_log_mono strategies xs _ r h
        refine ⟨⟨e.value_detected, subject_label n, "pseudonymization",
          e.entity_type, e.start, none⟩, ?_, rfl, rfl, rfl, n, rfl⟩
        rw [hs]
        simp
      · exact ih acc1 r h e hxs hmiss

/-- C9: in the anonymize node, every surviving classified entity whose value
is absent from the `anonymization_strategies` map is anonymized with the
pseudonymization technique: the transformation log records a non-keep entry
for it whose replacement is a `Subject-NNN` pseudonym (the keep branch, the
only branch that leaves a span unmodified, is never taken for it). -/
theorem missing_strategy_gets_pseudonymization :
    ∀ (raw_text : List Char) (classified_entities : List ClassifiedEntity)
      (strategies : List (List Char × JustifyStrategy))
      (out : List Char × List LogEntry),
      anonymize_node raw_text classified_entities strategies = some out →
      ∀ e ∈ filter_overlapping_entities classified_entities,
        strategies.lookup e.value_detected = none →
        ∃ en ∈ out.2, en.original = e.value_detected ∧
          en.technique = "pseudonymization" ∧ en.kept_reason = none ∧
          ∃ n, en.anonymized = subject_label n := by
  intro raw ce strategies out hnode e he hmiss
  unfold anonymize_node at hnode
  obtain ⟨r, hr, rfl⟩ := Option.map_eq_some'.mp hnode
  have hmem : e ∈ List.insertionSort descStartLe (filter_overlapping_entities ce) :=
    ((List.perm_insertionSort descStartLe _).mem_iff).mpr he
  exact anonFold_missing strategies _ _ _ hr e hmem hmiss

/-- C9 witness: one strategy-less entity is logged with technique
pseudonymization and replaced by `Subject-001`. -/
theorem missing_strategy_witness :
    ∃ en ∈ [(⟨"Juan".toList, "Subject-001".toList, "pseudonymization",
        "person_name", 0, none⟩ : LogEntry)],
      en.original = "Juan".toList ∧ en.technique = "pseudonymization" ∧
      en.kept_reason = none ∧ ∃ n, en.anonymized = subject_label n :=
  missing_strategy_gets_pseudonymization "Juan llamó".toList
    [⟨"Juan".toList, "person_name", 0, 4⟩] []
    ("Subject-001 llamó".toList,
     [⟨"Juan".toList, "Subject-001".toList, "pseudonymization", "person_name", 0, none⟩])
    (by decide) ⟨"Juan".toList, "person_name", 0, 4⟩ (by decide) (by decide)

/-! ### C4: disjointness after overlap resolution -/

lemma sweep_pairwise :
    ∀ (l acc : List ClassifiedEntity) (le : Int),
      List.Pairwise (fun a b : ClassifiedEntity => a.start ≤ b.start) l →
      (∀ e ∈ acc, ∀ x ∈ l, e.start ≤ x.start) →
      List.Pairwise (fun a b : ClassifiedEntity => b.stop ≤ a.start) acc →
      (∀ h t, acc = h :: t → le = (h.stop : Int)) →
      List.Pairwise (fun a b : ClassifiedEntity => b.stop ≤ a.start)
        (l.foldl sweepStep (acc, le)).1 := by
  intro l
  induction l with
  | nil => intro acc le _ _ hacc _; exact hacc
  | cons x rest ih =>
    intro acc le hsorted hfront hacc hle
    rw [List.foldl_cons]
    by_cases h1 : (x.start : Int) ≥ le
    · have hstep : sweepStep (acc, le) x = (x :: acc, (x.stop : Int)) := by
        simp only [sweepStep]
        rw [if_pos h1]
      rw [hstep]
      apply ih
      · exact hsorted.of_cons
      · intro e he y hy
        rcases List.mem_cons.mp he with rfl | heacc
        · exact List.rel_of_pairwise_cons hsorted hy
        · exact hfront e heacc y (List.mem_cons_of_mem x hy)
      · refine List.Pairwise.cons ?_ hacc
        intro e he
        cases acc with
        | nil => cases he
        | cons h t =>
          have hleh : le = (h.stop : Int) := hle h t rfl
          rcases List.mem_cons.mp he with rfl | het
          · have : (e.stop : Int) ≤ (x.start : Int) := by rw [← hleh]; exact h1
            exact_mod_cast this
          · have h2 : e.stop ≤ h.start := List.rel_of_pairwise_cons hacc het
            have h3 : h.start ≤ x.start :=
              hfront h (List.mem_cons_self h t) x (List.mem_cons_self x rest)
            omega
      · intro h t heq
        cases heq
        rfl
    · by_cases h2 : (x.stop : Int) ≤ le
      · have hstep : sweepStep (acc, le) x = (acc, le) := by
          simp only [sweepStep]
          rw [if_neg h1, if_pos h2]
        rw [hstep]
        exact ih acc le hsorted.of_cons
          (fun e he y hy => hfront e he y (List.mem_cons_of_mem x hy)) hacc hle
      · cases haccs : acc with
        | nil =>
          subst haccs
          have hstep : sweepStep (([] : List ClassifiedEntity), le) x = ([], le) := by
            simp only [sweepStep]
            rw [if_neg h1, if_neg h2]
          rw [hstep]
          exact ih [] le hsorted.of_cons (by intro e he; cases he)
            List.Pairwise.nil (by intro h t ht; cases ht)
        | cons h t =>
          subst haccs
          by_cases h3 : (x.stop : Int) - x.start > (h.stop : Int) - h.start
          · have hstep : sweepStep (h :: t, le) x = (x :: t, (x.stop : Int)) := by
              simp only [sweepStep]
              rw [if_neg h1, if_neg h2, if_pos h3]
            rw [hstep]
            apply ih
            · exact hsorted.of_cons
            · intro e he y hy
              rcases List.mem_cons.mp he with rfl | het
              · exact List.rel_of_pairwise_cons hsorted hy
              · exact hfront e (List.mem_cons_of_mem h het) y
                  (List.mem_cons_of_mem x hy)
            · refine List.Pairwise.cons ?_ hacc.of_cons
              intro e het
              have he2 : e.stop ≤ h.start := List.rel_of_pairwise_cons hacc het
              have he3 : h.start ≤ x.start :=
                hfront h (List.mem_cons_self h t) x (List.mem_cons_self x rest)
              omega
            · intro h' t' heq
              cases heq
              rfl
          · have hstep : sweepStep (h :: t, le) x = (h :: t, le) := by
              simp only [sweepStep]
              rw [if_neg h1, if_neg h2, if_neg h3]
            rw [hstep]
            exact ih (h :: t) le hsorted.of_cons
              (fun e he y hy => hfront e he y (List.mem_cons_of_mem x hy)) hacc hle

/-- C4: any two distinct entities surviving `filter_overlapping_entities` have
disjoint half-open offset ranges: no position belongs to both. -/
theorem filter_overlapping_entities_disjoint :
    ∀ entities : List ClassifiedEntity,
      List.Pairwise (fun a b : ClassifiedEntity =>
        ¬∃ i : Nat, (a.start ≤ i ∧ i < a.stop) ∧ (b.start ≤ i ∧ i < b.stop))
        (filter_overlapping_entities entities) := by
  intro entities
  cases entities with
  | nil => simp [filter_overlapping_entities]
  | cons x xs =>
    have hsorted : List.Pairwise (fun a b : ClassifiedEntity => a.start ≤ b.start)
        (List.insertionSort sweepKeyLe (x :: xs)) :=
      (List.sorted_insertionSort sweepKeyLe (x :: xs)).imp
        (fun hab => by unfold sweepKeyLe at hab; omega)
    have hmain := sweep_pairwise (List.insertionSort sweepKeyLe (x :: xs)) [] (-1)
      hsorted (by intro e he; cases he) List.Pairwise.nil (by intro h t ht; cases ht)
    simp only [filter_overlapping_entities]
    rw [List.pairwise_reverse]
    exact hmain.imp (fun hab => by rintro ⟨i, ⟨hi1, hi2⟩, hi3, hi4⟩; omega)

end Meli
